import Mathlib

/-!
Verification of the Azure DevOps PR helper (adopr-helper-mcp).

The repository ships two ports of the same design: a TypeScript module
(`src/azureDevOps.ts`, class `AzureDevOpsHelper`) and a C# port
(`dotnet/AdoPrHelperMcp/Services/AzureDevOpsHelper.cs`).  The embedding below
follows the TypeScript module for the pipeline, URL parsing, eligibility
filter and header construction, and follows the C# `GenerateUnifiedDiff`
for the diff synthesizer (the TypeScript port delegates that role to the
external `diff` npm package, whose code is not part of the repository).

URL parsing in both ports runs two JavaScript/.NET regular expressions with
the IgnoreCase flag and no anchors.  The matcher below implements exactly the
semantics those engines give to the two concrete patterns used:
leftmost match, lazy `(.+?)` groups (shortest first, lexicographic priority),
`.` excluding line terminators, greedy `\d+`, ASCII case folding.
-/

namespace AdoPr

/-- ASCII uppercase test, written on code points. -/
def isAsciiUpper (c : Char) : Bool :=
  65 ≤ c.toNat && c.toNat ≤ 90

/-- Case-insensitive character comparison as performed by a regex engine with
the IgnoreCase flag on ASCII patterns: equal, or equal after folding an ASCII
uppercase letter to lowercase. -/
def charEqCI (a b : Char) : Bool :=
  a == b
    || (isAsciiUpper a && a.toNat + 32 == b.toNat)
    || (isAsciiUpper b && b.toNat + 32 == a.toNat)

/-- Line-terminator characters, which `.` does not match in JavaScript. -/
def isLineTerm (c : Char) : Bool :=
  c.toNat == 10 || c.toNat == 13 || c.toNat == 8232 || c.toNat == 8233

/-- ASCII digit test (`\d`). -/
def isDigit (c : Char) : Bool :=
  48 ≤ c.toNat && c.toNat ≤ 57

/-- Match a literal pattern case-insensitively against the front of the input,
returning the remaining input on success. -/
def litMatchCI : List Char → List Char → Option (List Char)
  | [], s => some s
  | _ :: _, [] => none
  | p :: ps, c :: cs => if charEqCI c p then litMatchCI ps cs else none

/-- Worker for `lazyPlus`: the accumulator holds the characters consumed by
the lazy group so far. -/
def lazyPlusAux (cont : List Char → Option α) : List Char → List Char → Option (List Char × α)
  | _, [] => none
  | acc, c :: rest =>
    if isLineTerm c then none
    else
      match cont rest with
      | some v => some (acc ++ [c], v)
      | none => lazyPlusAux cont (acc ++ [c]) rest

/-- Semantics of a lazy group `(.+?)` followed by a continuation: consume at
least one non-line-terminator character, preferring the shortest group for
which the continuation succeeds. -/
def lazyPlus (cont : List Char → Option α) (s : List Char) : Option (List Char × α) :=
  lazyPlusAux cont [] s

/-- Take the maximal run of ASCII digits from the front of the input. -/
def takeDigits : List Char → List Char × List Char
  | [] => ([], [])
  | c :: cs =>
    if isDigit c then
      match takeDigits cs with
      | (d, r) => (c :: d, r)
    else ([], c :: cs)

/-- Semantics of a trailing greedy `(\d+)`: at least one digit, maximal run. -/
def digitsGreedy (s : List Char) : Option (List Char × List Char) :=
  match takeDigits s with
  | ([], _) => none
  | (ds, r) => some (ds, r)

/-- Compose a literal with the rest of the pattern: match the literal, then
continue on the remaining input. -/
def litThen (lit : List Char) (k : List Char → Option α) (s : List Char) : Option α :=
  match litMatchCI lit s with
  | none => none
  | some r => k r

/-- Tail of both patterns after the repository group: `/pullrequest/(\d+)`. -/
def contDigits : List Char → Option (List Char × List Char) :=
  litThen ("/pullrequest/".data) digitsGreedy

/-- Tail of both patterns from the repository group: `(.+?)/pullrequest/(\d+)`. -/
def tailRepo (s : List Char) : Option (List Char × List Char × List Char) :=
  lazyPlus contDigits s

/-- Continuation after the project group: `/_git/` then `tailRepo`. -/
def contGit : List Char → Option (List Char × List Char × List Char) :=
  litThen ("/_git/".data) tailRepo

/-- Tail of both patterns from the project group:
`(.+?)/_git/(.+?)/pullrequest/(\d+)`. -/
def tailProj (s : List Char) : Option (List Char × List Char × List Char × List Char) :=
  lazyPlus contGit s

/-- The four capture groups of a successful match. -/
structure RawMatch where
  g1 : List Char
  g2 : List Char
  g3 : List Char
  g4 : List Char
deriving DecidableEq

/-- Attempt of the pattern
`https://dev\.azure\.com/(.+?)/(.+?)/_git/(.+?)/pullrequest/(\d+)` (flag `i`)
at the current position. -/
def matchDevAt (s : List Char) : Option RawMatch :=
  match litMatchCI ("https://dev.azure.com/".data) s with
  | none => none
  | some r =>
    match lazyPlus (litThen ("/".data) tailProj) r with
    | none => none
    | some (g1, g2, g3, g4, _) => some ⟨g1, g2, g3, g4⟩

/-- Attempt of the pattern
`https://(.+?)\.visualstudio\.com/(.+?)/_git/(.+?)/pullrequest/(\d+)` (flag `i`)
at the current position. -/
def matchVsAt (s : List Char) : Option RawMatch :=
  match litMatchCI ("https://".data) s with
  | none => none
  | some r =>
    match lazyPlus (litThen (".visualstudio.com/".data) tailProj) r with
    | none => none
    | some (g1, g2, g3, g4, _) => some ⟨g1, g2, g3, g4⟩

/-- Unanchored search: try the match at every position, leftmost first, as
`String.prototype.match` does for a non-global regex. -/
def searchAux (m : List Char → Option RawMatch) : List Char → Option RawMatch
  | [] => m []
  | c :: rest =>
    match m (c :: rest) with
    | some x => some x
    | none => searchAux m rest

/-- Numeric value of a digit string, as `parseInt(str, 10)` computes it. -/
def digitsVal (ds : List Char) : Nat :=
  ds.foldl (fun a c => 10 * a + (c.toNat - 48)) 0

/-- Errors thrown by the TypeScript module, one constructor per distinct
`throw new Error(...)` site. -/
inductive AdoError where
  | invalidUrl
  | patNotSet
  | httpError (label : String) (status : Nat)
  | prNotActive
  | mergeConflict
  | branchMissing
  | noChanges
  | noSupportedFiles
deriving DecidableEq

/-- Parsed PR identifiers (`PrInfo` in `models.ts`). -/
structure PrInfo where
  organization : String
  project : String
  repository : String
  pullRequestId : Nat
deriving DecidableEq

/-- Build the result record from the four capture groups, as
`parsePrUrlInternal` does. -/
def rawToInfo (m : RawMatch) : PrInfo :=
  { organization := String.mk m.g1
    project := String.mk m.g2
    repository := String.mk m.g3
    pullRequestId := digitsVal m.g4 }

/-- Embedding of `parsePrUrl`: try the dev.azure.com pattern, then the
visualstudio.com pattern; throw on failure of both. -/
def parsePrUrl (prUrl : String) : Except AdoError PrInfo :=
  match searchAux matchDevAt prUrl.data with
  | some m => .ok (rawToInfo m)
  | none =>
    match searchAux matchVsAt prUrl.data with
    | some m => .ok (rawToInfo m)
    | none => .error .invalidUrl

/-! ## Data model (`models.ts`) -/

/-- Authentication options returned by the token provider
(`'interactive'` or `'pat'` plus the token). -/
structure AuthOptions where
  type : String
  token : String
deriving DecidableEq

/-- Pull-request summary fields used by the module. -/
structure PullRequest where
  pullRequestId : Nat
  status : String
  mergeStatus : String
  sourceRefName : String
  targetRefName : String
deriving DecidableEq

/-- A changed item as returned by the diffs endpoint.  `path` and `url` are
declared as `string` in `models.ts` but the code guards against `undefined`
at runtime, so they are modelled as optional; the blob ids are optional in
the interface itself. -/
structure GitItem where
  objectId : Option String
  originalObjectId : Option String
  gitObjectType : String
  commitId : String
  path : Option String
  url : Option String
deriving DecidableEq

/-- A change entry: the item plus the change type string. -/
structure GitChange where
  item : GitItem
  changeType : String
deriving DecidableEq

/-- Body of the diffs endpoint; `changes` can be absent
(`data.changes || []`). -/
structure CommitDiffs where
  changes : Option (List GitChange)
deriving DecidableEq

/-- Output unit: path, optional original content, unified diff text. -/
structure FilePatch where
  filePath : Option String
  sourceContent : Option String
  patch : String
deriving DecidableEq

/-- A line/offset position in a thread context. -/
structure FilePosition where
  line : Int
  offset : Int
deriving DecidableEq

/-- A single comment in a thread payload. -/
structure PrComment where
  content : String
deriving DecidableEq

/-- The thread context naming the file and the anchored region. -/
structure ThreadContext where
  filePath : String
  rightFileStart : FilePosition
  rightFileEnd : FilePosition
deriving DecidableEq

/-- The thread payload POSTed to the threads endpoint. -/
structure PrThread where
  comments : List PrComment
  threadContext : ThreadContext
deriving DecidableEq

/-- Input of `postPrComment`. -/
structure PrCommentOptions where
  prUrl : String
  comment : String
  filePath : String
  rightFileStartLine : Int
  rightFileStartOffset : Int
  rightFileEndLine : Int
  rightFileEndOffset : Int
deriving DecidableEq

/-! ## URL builders and headers -/

/-- Azure DevOps REST API version used by the module. -/
def apiVersion : String := "7.1"

/-- Embedding of `getBaseUrl`. -/
def getBaseUrl (organization project repository : String) : String :=
  "https://dev.azure.com/" ++ organization ++ "/" ++ project ++
    "/_apis/git/repositories/" ++ repository

/-- Embedding of `getPrDetailsUrl`. -/
def getPrDetailsUrl (baseUrl : String) (pullRequestId : Nat) : String :=
  baseUrl ++ "/pullRequests/" ++ toString pullRequestId ++ "?api-version=" ++ apiVersion

/-- Embedding of `getDiffsUrl`. -/
def getDiffsUrl (baseUrl sourceBranch targetBranch : String) : String :=
  baseUrl ++ "/diffs/commits?baseVersion=" ++ targetBranch ++ "&targetVersion=" ++
    sourceBranch ++ "&$top=2000&api-version=" ++ apiVersion

/-- Embedding of `getBlobUrl`. -/
def getBlobUrl (baseUrl sha : String) : String :=
  baseUrl ++ "/blobs/" ++ sha ++ "?api-version=" ++ apiVersion

/-- Embedding of `getThreadUrl`. -/
def getThreadUrl (baseUrl : String) (pullRequestId : Nat) : String :=
  baseUrl ++ "/pullRequests/" ++ toString pullRequestId ++ "/threads?api-version=" ++ apiVersion

/-- The base64 alphabet. -/
def base64Chars : List Char :=
  ("ABCDEFGHIJKLMNOPQRSTUVWXYZabcdefghijklmnopqrstuvwxyz0123456789+/".data)

/-- The base64 digit for a 6-bit value. -/
def b64Char (n : Nat) : Char := base64Chars.getD n ('A')

/-- Base64-encode a byte sequence (RFC 4648, with padding). -/
def base64Encode : List Nat → List Char
  | [] => []
  | [b1] => [b64Char (b1 / 4), b64Char (b1 % 4 * 16), '=', '=']
  | [b1, b2] => [b64Char (b1 / 4), b64Char (b1 % 4 * 16 + b2 / 16), b64Char (b2 % 16 * 4), '=']
  | b1 :: b2 :: b3 :: rest =>
    b64Char (b1 / 4) :: b64Char (b1 % 4 * 16 + b2 / 16) ::
      b64Char (b2 % 16 * 4 + b3 / 64) :: b64Char (b3 % 64) :: base64Encode rest

/-- Model of the platform `btoa`: base64 of the string's code units. -/
def btoa (s : String) : String :=
  String.mk (base64Encode (s.data.map Char.toNat))

/-- The header record built by `getDefaultHeaders`. -/
structure Headers where
  authorization : String
  contentType : String
  accept : String
deriving DecidableEq

/-- Embedding of `getDefaultHeaders`: throws when the token is missing (falsy),
builds `Basic base64(":" + token)` when the credential type is `'pat'` and
`Bearer token` otherwise.  Note that it is a function of the credential alone:
no URL is consulted. -/
def getDefaultHeaders (authOptions : AuthOptions) : Except AdoError Headers :=
  if authOptions.token = "" then .error .patNotSet
  else
    .ok
      { authorization :=
          if authOptions.type = "pat" then "Basic " ++ btoa (":" ++ authOptions.token)
          else "Bearer " ++ authOptions.token
        contentType := "application/json"
        accept := "application/json" }

/-- Embedding of `isSupportedChange`: add/edit, blob, path and url present. -/
def isSupportedChange (change : GitChange) : Bool :=
  (["add", "edit"].contains change.changeType)
    && change.item.gitObjectType == "blob"
    && change.item.path.isSome
    && change.item.url.isSome

/-! ## Diff synthesizer

The unified-diff generator is embedded from the C# port's
`GenerateUnifiedDiff`, the only in-repository implementation of the Diff
Synthesizer component (the TypeScript port calls the external `diff`
package for the same role). -/

/-- Split a text into lines at every bare `\n`, keeping empty segments, as
`text.Split('\n')` does. -/
def splitOnNl : List Char → List (List Char)
  | [] => [[]]
  | c :: cs =>
    if c = '\n' then [] :: splitOnNl cs
    else
      match splitOnNl cs with
      | [] => [[c]]
      | l :: ls => (c :: l) :: ls

/-- Lines of a text, as strings. -/
def splitLines (s : String) : List String :=
  (splitOnNl s.data).map String.mk

/-- The change classification of one line of the diff model. -/
inductive PieceType where
  | unchanged
  | deleted
  | inserted
  | modified
deriving DecidableEq

/-- One line of the diff model. -/
structure DiffPiece where
  typ : PieceType
  text : String
deriving DecidableEq

/-- Number of changed lines of a diff model, used to pick a minimal script. -/
def editCost (l : List DiffPiece) : Nat :=
  (l.filter (fun p => !(p.typ == PieceType.unchanged))).length

/-- Fuel-indexed minimal line edit script; the fuel dominates the combined
length of the two inputs. -/
def lcsDiffF : Nat → List String → List String → List DiffPiece
  | _, [], [] => []
  | 0, _, _ => []
  | fuel + 1, [], y :: ys => ⟨.inserted, y⟩ :: lcsDiffF fuel [] ys
  | fuel + 1, x :: xs, [] => ⟨.deleted, x⟩ :: lcsDiffF fuel xs []
  | fuel + 1, x :: xs, y :: ys =>
    if x = y then ⟨.unchanged, x⟩ :: lcsDiffF fuel xs ys
    else
      let d := ⟨.deleted, x⟩ :: lcsDiffF fuel xs (y :: ys)
      let i := ⟨.inserted, y⟩ :: lcsDiffF fuel (x :: xs) ys
      if editCost d ≤ editCost i then d else i

/-- Minimal line edit script between two line lists, deletions emitted before
insertions within a changed block. -/
def lcsDiff (xs ys : List String) : List DiffPiece :=
  lcsDiffF (xs.length + ys.length) xs ys

/-- Modelled from the spec: the line-granularity comparison performed by the
external differ (DiffPlex `InlineDiffBuilder.BuildDiffModel` in the C# port,
jsdiff in the TypeScript port), whose code is not part of the repository —
"runs are computed over a line-granularity comparison of old vs new text
(line-by-line equality, no intra-line word diffing)". -/
def buildDiffModel (oldText newText : String) : List DiffPiece :=
  lcsDiff (splitLines oldText) (splitLines newText)

/-- State threaded through `GenerateUnifiedDiff`'s loop: emitted lines (one
per `AppendLine`), the running line cursors, the pending hunk start and the
pending hunk body. -/
structure HunkState where
  out : List String
  oldLn : Int
  newLn : Int
  hunkStart : Int
  hunkLines : List String
deriving DecidableEq

/-- Embedding of `WriteHunk`: append the hunk header (the C# code prints
`oldStart` on both sides) followed by the body lines. -/
def writeHunk (out : List String) (oldStart oldCount newCount : Int) (lines : List String) : List String :=
  out ++ (("@@ -" ++ toString oldStart ++ "," ++ toString oldCount ++ " +" ++
    toString oldStart ++ "," ++ toString newCount ++ " @@") :: lines)

/-- One iteration of `GenerateUnifiedDiff`'s `foreach` over the diff model. -/
def processLine (st : HunkState) (line : DiffPiece) : HunkState :=
  match line.typ with
  | .unchanged =>
    { out :=
        if st.hunkLines.length > 0 then
          writeHunk st.out st.hunkStart (st.oldLn - st.hunkStart)
            (st.newLn - st.hunkStart) st.hunkLines
        else st.out
      oldLn := st.oldLn + 1
      newLn := st.newLn + 1
      hunkStart := st.oldLn
      hunkLines := [] }
  | .deleted =>
    { st with
      hunkStart := if st.hunkLines.length = 0 then st.oldLn else st.hunkStart
      hunkLines := st.hunkLines ++ ["-" ++ line.text]
      oldLn := st.oldLn + 1 }
  | .inserted =>
    { st with
      hunkStart := if st.hunkLines.length = 0 then st.newLn else st.hunkStart
      hunkLines := st.hunkLines ++ ["+" ++ line.text]
      newLn := st.newLn + 1 }
  | .modified =>
    { st with
      hunkStart := if st.hunkLines.length = 0 then st.oldLn else st.hunkStart
      hunkLines := st.hunkLines ++ ["-" ++ line.text, "+" ++ line.text]
      oldLn := st.oldLn + 1
      newLn := st.newLn + 1 }

/-- Embedding of `GenerateUnifiedDiff`, producing the emitted lines: the two
header lines, then for each maximal run of changed lines a hunk header and
the run's `-`/`+` lines. -/
def generateUnifiedDiffLines (fileName oldText newText : String) : List String :=
  let init : HunkState :=
    { out := ["--- a/" ++ fileName, "+++ b/" ++ fileName]
      oldLn := 1, newLn := 1, hunkStart := 0, hunkLines := [] }
  let final := (buildDiffModel oldText newText).foldl processLine init
  if final.hunkLines.length > 0 then
    writeHunk final.out final.hunkStart (final.oldLn - final.hunkStart)
      (final.newLn - final.hunkStart) final.hunkLines
  else final.out

/-- The unified diff as one string, each emitted line newline-terminated. -/
def generateUnifiedDiff (fileName oldText newText : String) : String :=
  String.join ((generateUnifiedDiffLines fileName oldText newText).map (· ++ "\n"))

/-! ## Effectful pipeline

Network and credential effects are made explicit: every operation returns its
result together with the ordered list of effects it performed.  `.acquire`
records a call of the token provider (`await this.tokenProvider()`),
`.request` an HTTP request issued by `fetch`. -/

/-- An HTTP request issued by the module, by endpoint. -/
inductive Request where
  | prDetails (url : String)
  | diffs (url : String)
  | blob (url : String)
  | postThread (url : String) (body : PrThread)
deriving DecidableEq

/-- An observable effect of running an operation. -/
inductive Effect where
  | acquire
  | request (r : Request)
deriving DecidableEq

/-- A canned HTTP response: status plus decoded body. -/
structure Response (β : Type) where
  status : Nat
  body : β
deriving DecidableEq

/-- The environment an operation runs against: the credential the provider
returns and the responses the remote service gives each endpoint. -/
structure Env where
  auth : AuthOptions
  prDetails : Response PullRequest
  diffs : Response CommitDiffs
  blob : String → Response String
  postStatus : Nat

/-- Whether `fetch`'s `response.ok` holds: status in the range 200–299. -/
def respOk (status : Nat) : Bool :=
  200 ≤ status && status ≤ 299

/-- Embedding of `sendRequest`: obtain headers (which first awaits the token
provider), issue the request, and throw on a non-2xx status. -/
def sendRequestT (env : Env) (r : Request) (label : String) (status : Nat) :
    Except AdoError Unit × List Effect :=
  match getDefaultHeaders env.auth with
  | .error e => (.error e, [.acquire])
  | .ok _ =>
    (if respOk status then .ok () else .error (.httpError label status),
      [.acquire, .request r])

/-- Embedding of `getPrDetails`: fetch the summary, then validate that the PR
is active and has no merge conflict. -/
def getPrDetailsT (env : Env) (url : String) : Except AdoError PullRequest × List Effect :=
  match sendRequestT env (.prDetails url) ("Failed to get PR details") env.prDetails.status with
  | (.error e, t) => (.error e, t)
  | (.ok _, t) =>
    let pr := env.prDetails.body
    if pr.status ≠ "active" then (.error .prNotActive, t)
    else if pr.mergeStatus ≠ "succeeded" then (.error .mergeConflict, t)
    else (.ok pr, t)

/-- Embedding of `getGitChanges`: fetch the diffs and default a missing
`changes` array to `[]`. -/
def getGitChangesT (env : Env) (url : String) : Except AdoError (List GitChange) × List Effect :=
  match sendRequestT env (.diffs url) ("Failed to get git changes") env.diffs.status with
  | (.error e, t) => (.error e, t)
  | (.ok _, t) => (.ok (env.diffs.body.changes.getD []), t)

/-- Embedding of `getBlobContent`: fetch the blob text via `sendRequest`. -/
def getBlobContentT (env : Env) (url : String) : Except AdoError String × List Effect :=
  match sendRequestT env (.blob url) ("Failed to download blob content") (env.blob url).status with
  | (.error e, t) => (.error e, t)
  | (.ok _, t) => (.ok (env.blob url).body, t)

/-- JavaScript truthiness of an optional string: present and non-empty. -/
def strTruthy : Option String → Bool
  | some s => !(s == "")
  | none => false

/-- JavaScript coercion of a possibly-undefined string used as a string. -/
def optStr : Option String → String
  | some s => s
  | none => "undefined"

/-- One guarded blob download of `getFilePatch`
(`if (fileItem.objectId) { ... }`): fetch only when the id is truthy. -/
def fetchIfPresent (env : Env) (baseUrl : String) (sha? : Option String) :
    Except AdoError (Option String) × List Effect :=
  match sha? with
  | none => (.ok none, [])
  | some sha =>
    if sha = "" then (.ok none, [])
    else
      match getBlobContentT env (getBlobUrl baseUrl sha) with
      | (.error e, t) => (.error e, t)
      | (.ok text, t) => (.ok (some text), t)

/-- Embedding of `getFilePatch`: download the original and new blob contents
when their ids are present, then synthesize the unified diff of the two texts
(missing sides as empty text). -/
def getFilePatchT (env : Env) (baseUrl : String) (fileItem : GitItem) :
    Except AdoError FilePatch × List Effect :=
  match fetchIfPresent env baseUrl fileItem.originalObjectId with
  | (.error e, t) => (.error e, t)
  | (.ok sourceContent, t1) =>
    match fetchIfPresent env baseUrl fileItem.objectId with
    | (.error e, t2) => (.error e, t1 ++ t2)
    | (.ok newContent, t2) =>
      let patch := generateUnifiedDiff (optStr fileItem.path)
        (sourceContent.getD "") (newContent.getD "")
      (.ok { filePath := fileItem.path, sourceContent := sourceContent, patch := patch },
        t1 ++ t2)

/-- The joined per-file tasks (`Promise.all`): results are delivered in the
order of the input list regardless of task completion order, and the first
failure fails the whole join. -/
def getFilePatchesT (env : Env) (baseUrl : String) :
    List GitItem → Except AdoError (List FilePatch) × List Effect
  | [] => (.ok [], [])
  | it :: rest =>
    match getFilePatchT env baseUrl it with
    | (.error e, t) => (.error e, t)
    | (.ok p, t) =>
      match getFilePatchesT env baseUrl rest with
      | (.error e, t2) => (.error e, t ++ t2)
      | (.ok ps, t2) => (.ok (p :: ps), t ++ t2)

/-- JavaScript `String.prototype.replace` with a string pattern: replace the
first occurrence only. -/
def replaceFirst (pat repl : List Char) : List Char → List Char
  | [] => []
  | c :: cs =>
    if pat.isPrefixOf (c :: cs) then repl ++ (c :: cs).drop pat.length
    else c :: replaceFirst pat repl cs

/-- Hexadecimal digit for percent-encoding. -/
def hexDigit (n : Nat) : Char := ("0123456789ABCDEF".data).getD n ('0')

/-- Characters `encodeURIComponent` leaves unescaped. -/
def uriUnreserved (c : Char) : Bool :=
  c.isAlphanum || c == '-' || c == '_' || c == '.' || c == '!' || c == '~'
    || c == '*' || c == '\'' || c == '(' || c == ')'

/-- UTF-8 bytes of a character, as code-point values. -/
def utf8Bytes (c : Char) : List Nat :=
  let n := c.toNat
  if n < 128 then [n]
  else if n < 2048 then [192 + n / 64, 128 + n % 64]
  else if n < 65536 then [224 + n / 4096, 128 + n / 64 % 64, 128 + n % 64]
  else [240 + n / 262144, 128 + n / 4096 % 64, 128 + n / 64 % 64, 128 + n % 64]

/-- Model of `encodeURIComponent`: percent-encode every reserved character's
UTF-8 bytes. -/
def encodeURIComponent (s : String) : String :=
  String.mk
    ((s.data.map (fun c =>
      if uriUnreserved c then [c]
      else (utf8Bytes c).map (fun b => ['%', hexDigit (b / 16), hexDigit (b % 16)]) |>.flatten)).flatten)

/-- Branch short name: strip (the first occurrence of) `refs/heads/` from a
ref and percent-encode the remainder. -/
def branchShortName (ref : String) : String :=
  encodeURIComponent (String.mk (replaceFirst ("refs/heads/".data) [] ref.data))

/-- Embedding of `getPrFileChanges`: parse the PR URL, fetch and validate the
PR summary, resolve the branches, fetch the change list, filter to supported
changes and synthesize one file patch per supported change. -/
def getPrFileChanges (env : Env) (prUrl : String) :
    Except AdoError (List FilePatch) × List Effect :=
  match parsePrUrl prUrl with
  | .error e => (.error e, [])
  | .ok info =>
    let baseUrl := getBaseUrl info.organization info.project info.repository
    match getPrDetailsT env (getPrDetailsUrl baseUrl info.pullRequestId) with
    | (.error e, t) => (.error e, t)
    | (.ok prDetails, t1) =>
      let sourceBranch := branchShortName prDetails.sourceRefName
      let targetBranch := branchShortName prDetails.targetRefName
      if sourceBranch == "" || targetBranch == "" then (.error .branchMissing, t1)
      else
        match getGitChangesT env (getDiffsUrl baseUrl sourceBranch targetBranch) with
        | (.error e, t2) => (.error e, t1 ++ t2)
        | (.ok changes, t2) =>
          if changes.length = 0 then (.error .noChanges, t1 ++ t2)
          else
            let fileItems := (changes.filter isSupportedChange).map (·.item)
            if fileItems.length = 0 then (.error .noSupportedFiles, t1 ++ t2)
            else
              match getFilePatchesT env baseUrl fileItems with
              | (.error e, t3) => (.error e, t1 ++ t2 ++ t3)
              | (.ok ps, t3) => (.ok ps, t1 ++ t2 ++ t3)

/-- Embedding of `postPrComment`: parse the PR URL, build the thread payload
with exactly one comment and the supplied anchor, and POST it to the threads
endpoint. -/
def postPrComment (env : Env) (prUrl : String) (options : PrCommentOptions) :
    Except AdoError Unit × List Effect :=
  match parsePrUrl prUrl with
  | .error e => (.error e, [])
  | .ok info =>
    let baseUrl := getBaseUrl info.organization info.project info.repository
    let threadUrl := getThreadUrl baseUrl info.pullRequestId
    let thread : PrThread :=
      { comments := [{ content := options.comment }]
        threadContext :=
          { filePath := options.filePath
            rightFileStart :=
              { line := options.rightFileStartLine, offset := options.rightFileStartOffset }
            rightFileEnd :=
              { line := options.rightFileEndLine, offset := options.rightFileEndOffset } } }
    sendRequestT env (.postThread threadUrl thread) ("Failed to create thread") env.postStatus

/-! ## Shared sample data for concrete instantiations -/

/-- A sample eligible change: an added blob with only a new blob id. -/
def sampleChange : GitChange :=
  { item :=
      { objectId := some ("s1"), originalObjectId := none, gitObjectType := "blob"
        commitId := "c1", path := some ("/a"), url := some ("u") }
    changeType := "add" }

/-- A sample environment in which every remote call succeeds. -/
def sampleEnv : Env :=
  { auth := { type := "pat", token := "t" }
    prDetails :=
      { status := 200
        body :=
          { pullRequestId := 5, status := "active", mergeStatus := "succeeded"
            sourceRefName := "refs/heads/feat", targetRefName := "refs/heads/main" } }
    diffs := { status := 200, body := { changes := some [sampleChange] } }
    blob := fun _ => { status := 200, body := "hi\n" }
    postStatus := 200 }

/-! ## Claim C4: the eligibility filter -/

/-- C4: a change entry passes `isSupportedChange` exactly when its change type
is `add` or `edit`, its item is a blob, and path and url are present; and
every entry of a change list whose type is `delete`, `rename` or `move`, or
whose item is a `tree`, is excluded by the filter regardless of path/url. -/
theorem C4_eligibility (change : GitChange) (l : List GitChange) (c : GitChange)
    (hc : c.changeType = "delete" ∨ c.changeType = "rename" ∨ c.changeType = "move" ∨
      c.item.gitObjectType = "tree") :
    (isSupportedChange change = true ↔
      ((change.changeType = "add" ∨ change.changeType = "edit") ∧
        change.item.gitObjectType = "blob" ∧
        change.item.path.isSome = true ∧ change.item.url.isSome = true)) ∧
    c ∉ l.filter isSupportedChange := by
  have hiff : ∀ ch : GitChange, isSupportedChange ch = true ↔
      ((ch.changeType = "add" ∨ ch.changeType = "edit") ∧
        ch.item.gitObjectType = "blob" ∧
        ch.item.path.isSome = true ∧ ch.item.url.isSome = true) := by
    intro ch
    simp [isSupportedChange, and_assoc]
  refine ⟨hiff change, fun hmem => ?_⟩
  have hsup := (List.mem_filter.mp hmem).2
  rcases (hiff c).mp hsup with ⟨hty, hblob, -⟩
  rcases hc with h | h | h | h <;> rcases hty with h2 | h2 <;> simp_all

/-- Witness for C4 at a concrete excluded entry. -/
theorem C4_eligibility_witness :
    (("delete" : String) = "delete" ∨ ("delete" : String) = "rename" ∨
      ("delete" : String) = "move" ∨
      ({ sampleChange with changeType := "delete" } : GitChange).item.gitObjectType = "tree") ∧
    { sampleChange with changeType := "delete" } ∉
      [{ sampleChange with changeType := "delete" }].filter isSupportedChange :=
  ⟨Or.inl rfl,
    (C4_eligibility sampleChange [{ sampleChange with changeType := "delete" }]
      { sampleChange with changeType := "delete" } (Or.inl rfl)).2⟩

/-! ## Claim C7: the Authorization header -/

/-- C7: for a non-empty token, `getDefaultHeaders` builds
`Basic base64(":" + token)` when the credential type is `pat` and
`Bearer token` for every other type (the scheme depends on the credential
alone, no URL being consulted), and a `pat` credential with token `"abc"`
yields exactly `Basic OmFiYw==`. -/
theorem C7_authorization_header (a : AuthOptions) (h : a.token ≠ "") :
    (a.type = "pat" →
      getDefaultHeaders a =
        .ok { authorization := "Basic " ++ btoa (":" ++ a.token)
              contentType := "application/json", accept := "application/json" }) ∧
    (a.type ≠ "pat" →
      getDefaultHeaders a =
        .ok { authorization := "Bearer " ++ a.token
              contentType := "application/json", accept := "application/json" }) ∧
    getDefaultHeaders { type := "pat", token := "abc" } =
      .ok { authorization := "Basic OmFiYw=="
            contentType := "application/json", accept := "application/json" } := by
  refine ⟨fun hp => ?_, fun hp => ?_, by rfl⟩
  · simp [getDefaultHeaders, h, hp]
  · simp [getDefaultHeaders, h, hp]

/-- Witness for C7 at the concrete static credential of the claim. -/
theorem C7_authorization_header_witness :
    ({ type := "pat", token := "abc" } : AuthOptions).token ≠ "" ∧
    getDefaultHeaders { type := "pat", token := "abc" } =
      .ok { authorization := "Basic OmFiYw=="
            contentType := "application/json", accept := "application/json" } :=
  ⟨by decide, (C7_authorization_header { type := "pat", token := "abc" } (by decide)).2.2⟩

/-! ## Claim C9: eligibility and diffing without blob ids -/

/-- C9: the filter does not look at the blob ids — an add/edit blob entry
with path and url but neither `objectId` nor `originalObjectId` is eligible —
and on such an item `getFilePatch` succeeds without any blob fetch, returning
the diff of empty text against empty text with no original content. -/
theorem C9_no_blob_ids (env : Env) (baseUrl : String) (change : GitChange)
    (hty : change.changeType = "add" ∨ change.changeType = "edit")
    (hblob : change.item.gitObjectType = "blob")
    (hpath : change.item.path.isSome = true) (hurl : change.item.url.isSome = true)
    (hnew : change.item.objectId = none) (horig : change.item.originalObjectId = none) :
    isSupportedChange change = true ∧
    getFilePatchT env baseUrl change.item =
      (.ok { filePath := change.item.path, sourceContent := none
             patch := generateUnifiedDiff (optStr change.item.path) "" "" }, []) := by
  constructor
  · rcases hty with h | h <;>
      simp [isSupportedChange, h, hblob, hpath, hurl]
  · simp [getFilePatchT, fetchIfPresent, hnew, horig]

/-- Witness for C9 at a concrete id-less added blob. -/
theorem C9_no_blob_ids_witness :
    (({ item := { objectId := none, originalObjectId := none, gitObjectType := "blob"
                  commitId := "c1", path := some ("/a"), url := some ("u") }
        changeType := "add" } : GitChange).changeType = "add" ∨
      ({ item := { objectId := none, originalObjectId := none, gitObjectType := "blob"
                   commitId := "c1", path := some ("/a"), url := some ("u") }
         changeType := "add" } : GitChange).changeType = "edit") ∧
    isSupportedChange
      { item := { objectId := none, originalObjectId := none, gitObjectType := "blob"
                  commitId := "c1", path := some ("/a"), url := some ("u") }
        changeType := "add" } = true ∧
    getFilePatchT sampleEnv "b"
      ({ item := { objectId := none, originalObjectId := none, gitObjectType := "blob"
                   commitId := "c1", path := some ("/a"), url := some ("u") }
         changeType := "add" } : GitChange).item =
      (.ok { filePath := some ("/a"), sourceContent := none
             patch := generateUnifiedDiff "/a" "" "" }, []) := by
  refine ⟨Or.inl rfl, ?_⟩
  have h := C9_no_blob_ids sampleEnv "b"
    { item := { objectId := none, originalObjectId := none, gitObjectType := "blob"
                commitId := "c1", path := some ("/a"), url := some ("u") }
      changeType := "add" }
    (Or.inl rfl) rfl rfl rfl rfl rfl
  exact ⟨h.1, h.2⟩

/-! ## Claim C10: a locator failure has no effects -/

/-- C10: when URL parsing fails, both public operations fail with the parse
error and an empty effect list — the token provider is never called and no
HTTP request is issued. -/
theorem C10_parse_failure_no_effects (env : Env) (prUrl : String) (e : AdoError)
    (options : PrCommentOptions) (h : parsePrUrl prUrl = .error e) :
    getPrFileChanges env prUrl = (.error e, []) ∧
    postPrComment env prUrl options = (.error e, []) := by
  constructor
  · simp [getPrFileChanges, h]
  · simp [postPrComment, h]

/-- Witness for C10 at a concrete invalid URL. -/
theorem C10_parse_failure_no_effects_witness :
    parsePrUrl "hello world" = .error .invalidUrl ∧
    getPrFileChanges sampleEnv "hello world" = (.error .invalidUrl, []) ∧
    postPrComment sampleEnv "hello world"
      { prUrl := "hello world", comment := "c", filePath := "/a"
        rightFileStartLine := 1, rightFileStartOffset := 1
        rightFileEndLine := 1, rightFileEndOffset := 2 } = (.error .invalidUrl, []) := by
  refine ⟨by rfl, ?_⟩
  have h := C10_parse_failure_no_effects sampleEnv "hello world" .invalidUrl
    { prUrl := "hello world", comment := "c", filePath := "/a"
      rightFileStartLine := 1, rightFileStartOffset := 1
      rightFileEndLine := 1, rightFileEndOffset := 2 } (by rfl)
  exact ⟨h.1, h.2⟩

/-! ## Claims C5 and C2: shape of the synthesized diff -/

/-- A line permitted inside a hunk body: a deletion or an insertion. -/
def hunkLineOk (l : String) : Prop :=
  (∃ t, l = "-" ++ t) ∨ (∃ t, l = "+" ++ t)

/-- A line permitted after the two file headers: a hunk header, a deletion or
an insertion — in particular never a bare unchanged line. -/
def bodyLineOk (l : String) : Prop :=
  (∃ t, l = "@@ " ++ t) ∨ hunkLineOk l

theorem lcsDiffF_self (l : List String) :
    ∀ fuel, 2 * l.length ≤ fuel + 1 →
      lcsDiffF fuel l l = l.map (fun x => ⟨PieceType.unchanged, x⟩) := by
  induction l with
  | nil => intro fuel _; cases fuel <;> rfl
  | cons x l ih =>
    intro fuel h
    cases fuel with
    | zero => exfalso; simp only [List.length_cons] at h; omega
    | succ f =>
      have hf : 2 * l.length ≤ f + 1 := by simp [List.length_cons] at h; omega
      simp [lcsDiffF, ih f hf]

theorem foldl_keep_map (ts : List String) :
    ∀ st : HunkState, st.hunkLines = [] →
      ((ts.map (fun x => (⟨PieceType.unchanged, x⟩ : DiffPiece))).foldl processLine st).out
          = st.out ∧
      ((ts.map (fun x => (⟨PieceType.unchanged, x⟩ : DiffPiece))).foldl processLine st).hunkLines
          = [] := by
  induction ts with
  | nil => intro st h; exact ⟨rfl, h⟩
  | cons t ts ih =>
    intro st h
    have hstep : processLine st ⟨PieceType.unchanged, t⟩ =
        { out := st.out, oldLn := st.oldLn + 1, newLn := st.newLn + 1
          hunkStart := st.oldLn, hunkLines := [] } := by
      simp [processLine, h]
    simpa [hstep] using ih _ (by rfl)

/-- C5: diffing identical content is a fixed point — for every path and text,
the synthesized unified diff is the two header lines with zero hunks. -/
theorem C5_identity_diff (path s : String) :
    generateUnifiedDiffLines path s s = ["--- a/" ++ path, "+++ b/" ++ path] ∧
    generateUnifiedDiff path s s =
      ("--- a/" ++ path ++ "\n") ++ ("+++ b/" ++ path ++ "\n") := by
  have hmodel : buildDiffModel s s =
      (splitLines s).map (fun x => ⟨PieceType.unchanged, x⟩) := by
    unfold buildDiffModel lcsDiff
    exact lcsDiffF_self (splitLines s) _ (by omega)
  have hlines : generateUnifiedDiffLines path s s = ["--- a/" ++ path, "+++ b/" ++ path] := by
    unfold generateUnifiedDiffLines
    rw [hmodel]
    have h := foldl_keep_map (splitLines s)
      { out := ["--- a/" ++ path, "+++ b/" ++ path]
        oldLn := 1, newLn := 1, hunkStart := 0, hunkLines := [] } (by rfl)
    simp [h.1, h.2]
  refine ⟨hlines, ?_⟩
  simp [generateUnifiedDiff, hlines, String.join]

theorem writeHunk_mem (out : List String) (a b c : Int) (lines : List String)
    (hl : ∀ l ∈ lines, hunkLineOk l) :
    ∀ l ∈ writeHunk out a b c lines, l ∈ out ∨ bodyLineOk l := by
  intro l hmem
  unfold writeHunk at hmem
  rcases List.mem_append.mp hmem with h | h
  · exact Or.inl h
  · rcases List.mem_cons.mp h with h | h
    · refine Or.inr (Or.inl ⟨"-" ++ toString a ++ "," ++ toString b ++ " +" ++
        toString a ++ "," ++ toString c ++ " @@", ?_⟩)
      subst h
      rfl
    · exact Or.inr (Or.inr (hl l h))

theorem processLine_step (st : HunkState) (p : DiffPiece)
    (h : ∀ l ∈ st.hunkLines, hunkLineOk l) :
    (∀ l ∈ (processLine st p).hunkLines, hunkLineOk l) ∧
    (∀ l ∈ (processLine st p).out, l ∈ st.out ∨ bodyLineOk l) := by
  cases hp : p.typ with
  | unchanged =>
    refine ⟨by simp [processLine, hp], ?_⟩
    intro l hmem
    simp only [processLine, hp] at hmem
    by_cases hlen : st.hunkLines.length > 0
    · simp only [hlen, if_pos] at hmem
      exact writeHunk_mem _ _ _ _ _ h l hmem
    · simp only [hlen, if_neg] at hmem
      exact Or.inl hmem
  | deleted =>
    refine ⟨?_, fun l hmem => Or.inl (by simpa [processLine, hp] using hmem)⟩
    intro l hmem
    simp only [processLine, hp] at hmem
    rcases List.mem_append.mp hmem with h2 | h2
    · exact h l h2
    · rcases List.mem_cons.mp h2 with h3 | h3
      · exact Or.inl ⟨p.text, h3⟩
      · simp at h3
  | inserted =>
    refine ⟨?_, fun l hmem => Or.inl (by simpa [processLine, hp] using hmem)⟩
    intro l hmem
    simp only [processLine, hp] at hmem
    rcases List.mem_append.mp hmem with h2 | h2
    · exact h l h2
    · rcases List.mem_cons.mp h2 with h3 | h3
      · exact Or.inr ⟨p.text, h3⟩
      · simp at h3
  | modified =>
    refine ⟨?_, fun l hmem => Or.inl (by simpa [processLine, hp] using hmem)⟩
    intro l hmem
    simp only [processLine, hp] at hmem
    rcases List.mem_append.mp hmem with h2 | h2
    · exact h l h2
    · rcases List.mem_cons.mp h2 with h3 | h3
      · exact Or.inl ⟨p.text, h3⟩
      · rcases List.mem_cons.mp h3 with h4 | h4
        · exact Or.inr ⟨p.text, h4⟩
        · simp at h4

theorem processLine_fold_inv (dl : List DiffPiece) :
    ∀ st : HunkState, (∀ l ∈ st.hunkLines, hunkLineOk l) →
      (∀ l ∈ (dl.foldl processLine st).hunkLines, hunkLineOk l) ∧
      (∀ l ∈ (dl.foldl processLine st).out, l ∈ st.out ∨ bodyLineOk l) := by
  induction dl with
  | nil => intro st h; exact ⟨h, fun l hl => Or.inl hl⟩
  | cons p dl ih =>
    intro st h
    have hstep := processLine_step st p h
    have hrec := ih (processLine st p) hstep.1
    refine ⟨by simpa using hrec.1, ?_⟩
    intro l hmem
    rcases hrec.2 l (by simpa using hmem) with h2 | h2
    · exact hstep.2 l h2
    · exact Or.inr h2

/-- C2: the synthesized diff is change-only — every line after the two file
headers is a hunk header, a deletion or an insertion, never an unchanged
line — and on the claim's example the output is exactly one hunk replacing
line 2 with the unchanged lines omitted. -/
theorem C2_change_only_diff :
    (∀ (fileName oldText newText l : String),
      l ∈ (generateUnifiedDiffLines fileName oldText newText).drop 2 → bodyLineOk l) ∧
    generateUnifiedDiffLines "f" "a\nb\nc\n" "a\nx\nc\n" =
      ["--- a/f", "+++ b/f", "@@ -2,1 +2,1 @@", "-b", "+x"] := by
  refine ⟨?_, by rfl⟩
  intro fileName oldText newText l hdrop
  have hmem : l ∈ generateUnifiedDiffLines fileName oldText newText :=
    List.mem_of_mem_drop hdrop
  have hinv := processLine_fold_inv (buildDiffModel oldText newText)
    { out := ["--- a/" ++ fileName, "+++ b/" ++ fileName]
      oldLn := 1, newLn := 1, hunkStart := 0, hunkLines := [] } (by simp)
  have hheads : ∀ m : String,
      m ∈ ["--- a/" ++ fileName, "+++ b/" ++ fileName] → bodyLineOk m := by
    intro m hm
    rcases List.mem_cons.mp hm with h2 | h2
    · exact Or.inr (Or.inl ⟨"-- a/" ++ fileName, by rw [h2]; rfl⟩)
    · rcases List.mem_cons.mp h2 with h3 | h3
      · exact Or.inr (Or.inr ⟨"++ b/" ++ fileName, by rw [h3]; rfl⟩)
      · simp at h3
  have hout : l ∈ generateUnifiedDiffLines fileName oldText newText →
      l ∈ ["--- a/" ++ fileName, "+++ b/" ++ fileName] ∨ bodyLineOk l := by
    intro hmem2
    simp only [generateUnifiedDiffLines] at hmem2
    split at hmem2
    · rcases writeHunk_mem _ _ _ _ _ hinv.1 l hmem2 with h2 | h2
      · exact hinv.2 l h2
      · exact Or.inr h2
    · exact hinv.2 l hmem2
  rcases hout hmem with h2 | h2
  · exact hheads l h2
  · exact h2

/-- Witness for C2 at a concrete body line of the example diff. -/
theorem C2_change_only_diff_witness :
    ("-b" ∈ (generateUnifiedDiffLines "f" "a\nb\nc\n" "a\nx\nc\n").drop 2) ∧
    bodyLineOk "-b" :=
  ⟨by decide, C2_change_only_diff.1 "f" "a\nb\nc\n" "a\nx\nc\n" "-b" (by decide)⟩

/-! ## Claim C3: inactive or conflicted PRs fail before the diffs fetch -/

/-- C3: if the fetched summary's status is not `active`, `resolveChanges`
fails with the not-active error having issued only the summary request — the
effect trace contains no diffs fetch; if the status is `active` but the merge
status is not `succeeded`, it fails with the conflict error, likewise before
any diffs fetch. -/
theorem C3_validation_before_diffs (env : Env) (prUrl : String) (info : PrInfo)
    (hparse : parsePrUrl prUrl = .ok info)
    (htoken : env.auth.token ≠ "")
    (hstatus : respOk env.prDetails.status = true) :
    (env.prDetails.body.status ≠ "active" →
      getPrFileChanges env prUrl =
        (.error .prNotActive,
          [.acquire, .request (.prDetails (getPrDetailsUrl
            (getBaseUrl info.organization info.project info.repository) info.pullRequestId))])) ∧
    (env.prDetails.body.status = "active" → env.prDetails.body.mergeStatus ≠ "succeeded" →
      getPrFileChanges env prUrl =
        (.error .mergeConflict,
          [.acquire, .request (.prDetails (getPrDetailsUrl
            (getBaseUrl info.organization info.project info.repository) info.pullRequestId))])) := by
  constructor
  · intro hstat
    simp [getPrFileChanges, hparse, getPrDetailsT, sendRequestT, getDefaultHeaders, htoken,
      hstatus, hstat]
  · intro hstat hmerge
    simp [getPrFileChanges, hparse, getPrDetailsT, sendRequestT, getDefaultHeaders, htoken,
      hstatus, hstat, hmerge]

/-- Witness for C3 at a concrete completed PR. -/
theorem C3_validation_before_diffs_witness :
    parsePrUrl "https://dev.azure.com/o/p/_git/r/pullrequest/5" =
      .ok { organization := "o", project := "p", repository := "r", pullRequestId := 5 } ∧
    getPrFileChanges
      { sampleEnv with
        prDetails :=
          { status := 200
            body :=
              { pullRequestId := 5, status := "completed", mergeStatus := "succeeded"
                sourceRefName := "refs/heads/f", targetRefName := "refs/heads/m" } } }
      "https://dev.azure.com/o/p/_git/r/pullrequest/5" =
      (.error .prNotActive,
        [.acquire, .request (.prDetails (getPrDetailsUrl (getBaseUrl "o" "p" "r") 5))]) := by
  refine ⟨by rfl, ?_⟩
  exact (C3_validation_before_diffs _ _
    { organization := "o", project := "p", repository := "r", pullRequestId := 5 }
    (by rfl) (by decide) (by rfl)).1 (by decide)

/-! ## Claim C8: the comment publisher -/

/-- C8: `postPrComment` builds a payload with exactly one comment holding the
supplied text and a context naming the file and the start/end anchor, issues
exactly one POST to the threads endpoint (after one credential acquisition),
succeeds exactly on a 2xx status and returns no identifiers. -/
theorem C8_publish_single_post (env : Env) (prUrl : String) (options : PrCommentOptions)
    (info : PrInfo) (hparse : parsePrUrl prUrl = .ok info) (htoken : env.auth.token ≠ "") :
    postPrComment env prUrl options =
      ((if respOk env.postStatus then .ok ()
        else .error (.httpError "Failed to create thread" env.postStatus)),
        [.acquire, .request (.postThread
          (getThreadUrl (getBaseUrl info.organization info.project info.repository)
            info.pullRequestId)
          { comments := [{ content := options.comment }]
            threadContext :=
              { filePath := options.filePath
                rightFileStart :=
                  { line := options.rightFileStartLine, offset := options.rightFileStartOffset }
                rightFileEnd :=
                  { line := options.rightFileEndLine, offset := options.rightFileEndOffset } } })]) ∧
    ((postPrComment env prUrl options).1 = .ok () ↔
      (200 ≤ env.postStatus ∧ env.postStatus ≤ 299)) := by
  have h1 : postPrComment env prUrl options =
      ((if respOk env.postStatus then .ok ()
        else .error (.httpError "Failed to create thread" env.postStatus)),
        [.acquire, .request (.postThread
          (getThreadUrl (getBaseUrl info.organization info.project info.repository)
            info.pullRequestId)
          { comments := [{ content := options.comment }]
            threadContext :=
              { filePath := options.filePath
                rightFileStart :=
                  { line := options.rightFileStartLine, offset := options.rightFileStartOffset }
                rightFileEnd :=
                  { line := options.rightFileEndLine, offset := options.rightFileEndOffset } } })]) := by
    simp [postPrComment, hparse, sendRequestT, getDefaultHeaders, htoken]
  refine ⟨h1, ?_⟩
  rw [h1]
  by_cases hok : respOk env.postStatus = true
  · have h2 : 200 ≤ env.postStatus ∧ env.postStatus ≤ 299 := by
      simpa [respOk, Bool.and_eq_true, decide_eq_true_eq] using hok
    simp [hok, h2]
  · have h2 : ¬(200 ≤ env.postStatus ∧ env.postStatus ≤ 299) := by
      intro hc
      exact hok (by simpa [respOk, Bool.and_eq_true, decide_eq_true_eq] using hc)
    simp only [Bool.not_eq_true] at hok
    simp [hok, h2]

/-- Witness for C8 at a concrete comment request. -/
theorem C8_publish_single_post_witness :
    parsePrUrl "https://dev.azure.com/o/p/_git/r/pullrequest/5" =
      .ok { organization := "o", project := "p", repository := "r", pullRequestId := 5 } ∧
    postPrComment sampleEnv "https://dev.azure.com/o/p/_git/r/pullrequest/5"
      { prUrl := "https://dev.azure.com/o/p/_git/r/pullrequest/5", comment := "nice"
        filePath := "/a", rightFileStartLine := 3, rightFileStartOffset := 1
        rightFileEndLine := 3, rightFileEndOffset := 7 } =
      (.ok (),
        [.acquire, .request (.postThread (getThreadUrl (getBaseUrl "o" "p" "r") 5)
          { comments := [{ content := "nice" }]
            threadContext :=
              { filePath := "/a"
                rightFileStart := { line := 3, offset := 1 }
                rightFileEnd := { line := 3, offset := 7 } } })]) := by
  refine ⟨by rfl, ?_⟩
  have h := (C8_publish_single_post sampleEnv "https://dev.azure.com/o/p/_git/r/pullrequest/5"
    { prUrl := "https://dev.azure.com/o/p/_git/r/pullrequest/5", comment := "nice"
      filePath := "/a", rightFileStartLine := 3, rightFileStartOffset := 1
      rightFileEndLine := 3, rightFileEndOffset := 7 }
    { organization := "o", project := "p", repository := "r", pullRequestId := 5 }
    (by rfl) (by decide)).1
  simpa using h

/-! ## Claim C6: one output per eligible entry, in list order -/

theorem getGitChangesT_ok_val (env : Env) (url : String) (cs : List GitChange)
    (t : List Effect) (h : getGitChangesT env url = (.ok cs, t)) :
    cs = env.diffs.body.changes.getD [] := by
  unfold getGitChangesT at h
  split at h
  · simp_all
  · simp_all

theorem getFilePatchesT_ok (env : Env) (baseUrl : String) :
    ∀ (items : List GitItem) (out : List FilePatch) (t : List Effect),
      getFilePatchesT env baseUrl items = (.ok out, t) →
      out.length = items.length ∧
      ∀ i (hi : i < items.length) (ho : i < out.length),
        (getFilePatchT env baseUrl (items.get ⟨i, hi⟩)).1 = .ok (out.get ⟨i, ho⟩) := by
  intro items
  induction items with
  | nil =>
    intro out t h
    unfold getFilePatchesT at h
    obtain ⟨h1, h2⟩ := Prod.mk.injEq .. ▸ h
    refine ⟨?_, ?_⟩
    · simp [← Except.ok.injEq .. |>.mp h1.symm]
    · intro i hi ho
      exact absurd hi (by simp)
  | cons it rest ih =>
    intro out t h
    unfold getFilePatchesT at h
    split at h
    · simp_all
    · rename_i p tp hfp
      split at h
      · simp_all
      · rename_i ps ts hrec
        have hinj := Prod.mk.injEq .. ▸ h
        obtain ⟨h1, h2⟩ := hinj
        have hout : p :: ps = out := Except.ok.injEq .. |>.mp h1
        subst hout
        have hrest := ih ps ts hrec
        refine ⟨by simp [hrest.1], ?_⟩
        intro i hi ho
        cases i with
        | zero => simp [List.get, hfp]
        | succ n =>
          have hn : n < rest.length := by simpa using hi
          have hn2 : n < ps.length := by simpa using ho
          simpa using hrest.2 n hn hn2

/-- C6: whenever `getPrFileChanges` succeeds, the output array has exactly one
`FilePatch` per eligible change entry, in the order of the filtered change
list (the per-file tasks are joined positionally, so completion order cannot
reorder results). -/
theorem C6_output_order (env : Env) (prUrl : String) (info : PrInfo)
    (out : List FilePatch) (tr : List Effect)
    (hparse : parsePrUrl prUrl = .ok info)
    (hrun : getPrFileChanges env prUrl = (.ok out, tr)) :
    out.length =
      (((env.diffs.body.changes.getD []).filter isSupportedChange).map (·.item)).length ∧
    ∀ i (hi : i < (((env.diffs.body.changes.getD []).filter isSupportedChange).map
          (·.item)).length)
      (ho : i < out.length),
      (getFilePatchT env (getBaseUrl info.organization info.project info.repository)
        ((((env.diffs.body.changes.getD []).filter isSupportedChange).map
          (·.item)).get ⟨i, hi⟩)).1 = .ok (out.get ⟨i, ho⟩) := by
  simp only [getPrFileChanges, hparse] at hrun
  split at hrun
  · simp_all
  · rename_i prD t1 hdet
    split at hrun
    · simp_all
    · split at hrun
      · simp_all
      · rename_i cs t2 hgit
        have hcs : cs = env.diffs.body.changes.getD [] := getGitChangesT_ok_val env _ cs t2 hgit
        split at hrun
        · simp_all
        · split at hrun
          · simp_all
          · split at hrun
            · simp_all
            · rename_i ps t3 hpatches
              have hinj := Prod.mk.injEq .. ▸ hrun
              obtain ⟨h1, h2⟩ := hinj
              have hout : ps = out := Except.ok.injEq .. |>.mp h1
              subst hout
              subst hcs
              exact getFilePatchesT_ok env _ _ ps t3 hpatches

/-- Witness for C6 on the sample environment with one eligible change. -/
theorem C6_output_order_witness :
    parsePrUrl "https://dev.azure.com/o/p/_git/r/pullrequest/5" =
      .ok { organization := "o", project := "p", repository := "r", pullRequestId := 5 } ∧
    getPrFileChanges sampleEnv "https://dev.azure.com/o/p/_git/r/pullrequest/5" =
      (.ok [{ filePath := some ("/a"), sourceContent := none
              patch := generateUnifiedDiff "/a" "" "hi\n" }],
        [.acquire, .request (.prDetails (getPrDetailsUrl (getBaseUrl "o" "p" "r") 5)),
          .acquire, .request (.diffs (getDiffsUrl (getBaseUrl "o" "p" "r") "feat" "main")),
          .acquire, .request (.blob (getBlobUrl (getBaseUrl "o" "p" "r") "s1"))]) ∧
    ([({ filePath := some ("/a"), sourceContent := none
         patch := generateUnifiedDiff "/a" "" "hi\n" } : FilePatch)]).length =
      (((sampleEnv.diffs.body.changes.getD []).filter isSupportedChange).map (·.item)).length ∧
    (getFilePatchT sampleEnv (getBaseUrl "o" "p" "r") sampleChange.item).1 =
      .ok { filePath := some ("/a"), sourceContent := none
            patch := generateUnifiedDiff "/a" "" "hi\n" } := by
  have hrun : getPrFileChanges sampleEnv "https://dev.azure.com/o/p/_git/r/pullrequest/5" =
      (.ok [{ filePath := some ("/a"), sourceContent := none
              patch := generateUnifiedDiff "/a" "" "hi\n" }],
        [.acquire, .request (.prDetails (getPrDetailsUrl (getBaseUrl "o" "p" "r") 5)),
          .acquire, .request (.diffs (getDiffsUrl (getBaseUrl "o" "p" "r") "feat" "main")),
          .acquire, .request (.blob (getBlobUrl (getBaseUrl "o" "p" "r") "s1"))]) := by rfl
  have h := C6_output_order sampleEnv "https://dev.azure.com/o/p/_git/r/pullrequest/5"
    { organization := "o", project := "p", repository := "r", pullRequestId := 5 }
    [{ filePath := some ("/a"), sourceContent := none
       patch := generateUnifiedDiff "/a" "" "hi\n" }]
    [.acquire, .request (.prDetails (getPrDetailsUrl (getBaseUrl "o" "p" "r") 5)),
      .acquire, .request (.diffs (getDiffsUrl (getBaseUrl "o" "p" "r") "feat" "main")),
      .acquire, .request (.blob (getBlobUrl (getBaseUrl "o" "p" "r") "s1"))]
    (by rfl) hrun
  exact ⟨by rfl, hrun, h.1, h.2 0 (by decide) (by decide)⟩

/-! ## Claim C1: the URL parser

The two regular expressions are unanchored substring searches, case
insensitive on their whole pattern, and accept any digit run (including `0`,
with arbitrary trailing text) — so the parser accepts strictly more strings
than the two canonical URL shapes.  The lemmas below establish exactly what
it does accept. -/

/-- A path segment as used in the canonical URL shapes: non-empty, without
slashes and without line terminators. -/
def segOk (seg : List Char) : Bool :=
  !seg.isEmpty && seg.all (fun c => !(c == '/') && !(isLineTerm c))

/-- A well-formed id segment: a non-empty ASCII digit run. -/
def digitsOk (ds : List Char) : Bool :=
  !ds.isEmpty && ds.all isDigit

/-- The characters of a canonical dev.azure.com pull-request URL. -/
def devUrlChars (org proj repo ds : List Char) : List Char :=
  ("https://dev.azure.com/".data) ++ org ++ ("/".data) ++ proj ++ ("/_git/".data) ++
    repo ++ ("/pullrequest/".data) ++ ds

/-- The characters of a canonical visualstudio.com pull-request URL. -/
def vsUrlChars (org proj repo ds : List Char) : List Char :=
  ("https://".data) ++ org ++ (".visualstudio.com/".data) ++ proj ++ ("/_git/".data) ++
    repo ++ ("/pullrequest/".data) ++ ds

theorem charEqCI_refl (c : Char) : charEqCI c c = true := by
  simp [charEqCI]

theorem charEqCI_ne_low (c d : Char) (hne : c ≠ d) (hd1 : d.toNat < 97)
    (hd2 : d.toNat < 65 ∨ 90 < d.toNat) : charEqCI c d = false := by
  rw [Bool.eq_false_iff]
  intro h
  simp only [charEqCI, isAsciiUpper, Bool.or_eq_true, Bool.and_eq_true, beq_iff_eq,
    decide_eq_true_eq] at h
  rcases h with (h | ⟨⟨h1, h2⟩, h3⟩) | ⟨⟨h1, h2⟩, h3⟩
  · exact hne h
  · omega
  · omega

theorem segOk_spec (seg : List Char) (h : segOk seg = true) :
    seg ≠ [] ∧ (∀ c ∈ seg, c ≠ '/') ∧ (∀ c ∈ seg, isLineTerm c = false) := by
  simp only [segOk, Bool.and_eq_true, Bool.not_eq_true', List.all_eq_true] at h
  obtain ⟨h1, h2⟩ := h
  refine ⟨?_, fun c hc => ?_, fun c hc => ?_⟩
  · intro hnil
    rw [hnil] at h1
    simp at h1
  · have h3 := h2 c hc
    simp only [Bool.and_eq_true, Bool.not_eq_true', beq_eq_false_iff_ne] at h3
    exact h3.1
  · have h3 := h2 c hc
    simp only [Bool.and_eq_true, Bool.not_eq_true'] at h3
    exact h3.2

theorem digitsOk_spec (ds : List Char) (h : digitsOk ds = true) :
    ds ≠ [] ∧ ∀ c ∈ ds, isDigit c = true := by
  simp only [digitsOk, Bool.and_eq_true, Bool.not_eq_true', List.all_eq_true] at h
  obtain ⟨h1, h2⟩ := h
  refine ⟨?_, h2⟩
  intro hnil
  rw [hnil] at h1
  simp at h1

theorem litMatchCI_self (p : List Char) : ∀ r, litMatchCI p (p ++ r) = some r := by
  induction p with
  | nil => intro r; rfl
  | cons c p ih => intro r; simp [litMatchCI, charEqCI_refl, ih]

theorem litThen_self {α : Type} (lit : List Char) (k : List Char → Option α) (r : List Char) :
    litThen lit k (lit ++ r) = k r := by
  simp [litThen, litMatchCI_self]

theorem litThen_none_head {α : Type} (p : Char) (ps : List Char) (k : List Char → Option α)
    (c : Char) (cs : List Char) (h : charEqCI c p = false) :
    litThen (p :: ps) k (c :: cs) = none := by
  simp [litThen, litMatchCI, h]

theorem contFail_region {α : Type} (p : Char) (ps : List Char) (k : List Char → Option α)
    (region rest : List Char) (hreg : ∀ c ∈ region, c ≠ p)
    (hp1 : p.toNat < 97) (hp2 : p.toNat < 65 ∨ 90 < p.toNat) :
    ∀ i, 1 ≤ i → i < region.length → litThen (p :: ps) k (region.drop i ++ rest) = none := by
  intro i _ hi
  rw [List.drop_eq_getElem_cons hi, List.cons_append]
  exact litThen_none_head p ps k _ _
    (charEqCI_ne_low _ _ (hreg _ (List.getElem_mem ..)) hp1 hp2)

theorem lazyPlusAux_exact {α : Type} (cont : List Char → Option α) (v : α) :
    ∀ (region acc rest : List Char),
      region ≠ [] →
      (∀ c ∈ region, isLineTerm c = false) →
      (∀ i, 1 ≤ i → i < region.length → cont (region.drop i ++ rest) = none) →
      cont rest = some v →
      lazyPlusAux cont acc (region ++ rest) = some (acc ++ region, v) := by
  intro region
  induction region with
  | nil => intro acc rest h; exact absurd rfl h
  | cons c region ih =>
    intro acc rest _ hterm hfail hrest
    have hc : isLineTerm c = false := hterm c (by simp)
    cases region with
    | nil =>
      simp [lazyPlusAux, hc, hrest]
    | cons c2 region2 =>
      have hcont : cont ((c2 :: region2) ++ rest) = none := by
        have h1 := hfail 1 (le_refl 1) (by simp)
        simpa using h1
      have hrec := ih (acc ++ [c]) rest (by simp)
        (fun x hx => hterm x (by simp [hx]))
        (fun i h1 hi => by
          have h2 := hfail (i + 1) (by omega)
            (by simp only [List.length_cons]; simp only [List.length_cons] at hi; omega)
          simpa using h2)
        hrest
      have hstep : lazyPlusAux cont acc ((c :: c2 :: region2) ++ rest) =
          lazyPlusAux cont (acc ++ [c]) ((c2 :: region2) ++ rest) := by
        rw [show ((c :: c2 :: region2) ++ rest) = c :: ((c2 :: region2) ++ rest) from rfl]
        rw [show lazyPlusAux cont acc (c :: ((c2 :: region2) ++ rest)) =
            (if isLineTerm c = true then none
             else
               match cont ((c2 :: region2) ++ rest) with
               | some v2 => some (acc ++ [c], v2)
               | none => lazyPlusAux cont (acc ++ [c]) ((c2 :: region2) ++ rest)) from rfl]
        rw [hc, hcont]
        simp
      rw [hstep, hrec]
      simp

theorem lazyPlus_exact {α : Type} (cont : List Char → Option α) (v : α)
    (region rest : List Char) (hne : region ≠ [])
    (hterm : ∀ c ∈ region, isLineTerm c = false)
    (hfail : ∀ i, 1 ≤ i → i < region.length → cont (region.drop i ++ rest) = none)
    (hrest : cont rest = some v) :
    lazyPlus cont (region ++ rest) = some (region, v) := by
  have h := lazyPlusAux_exact cont v region [] rest hne hterm hfail hrest
  simpa [lazyPlus] using h

theorem takeDigits_all (ds : List Char) (h : ∀ c ∈ ds, isDigit c = true) :
    takeDigits ds = (ds, []) := by
  induction ds with
  | nil => rfl
  | cons c ds ih =>
    simp [takeDigits, h c (by simp), ih (fun x hx => h x (by simp [hx]))]

theorem digitsGreedy_all (ds : List Char) (hne : ds ≠ [])
    (h : ∀ c ∈ ds, isDigit c = true) : digitsGreedy ds = some (ds, []) := by
  cases ds with
  | nil => exact absurd rfl hne
  | cons c ds => simp [digitsGreedy, takeDigits_all _ h]

theorem tailRepo_canonical (repo ds : List Char) (hrepo : segOk repo = true)
    (hds : digitsOk ds = true) :
    tailRepo (repo ++ (("/pullrequest/".data) ++ ds)) = some (repo, ds, []) := by
  obtain ⟨hne, hslash, hterm⟩ := segOk_spec repo hrepo
  obtain ⟨hdne, hdig⟩ := digitsOk_spec ds hds
  unfold tailRepo
  refine lazyPlus_exact contDigits (ds, []) repo _ hne hterm ?_ ?_
  · intro i h1 hi
    exact contFail_region '/' ("pullrequest/".data) digitsGreedy repo _ hslash
      (by decide) (by decide) i h1 hi
  · have h := litThen_self ("/pullrequest/".data) digitsGreedy ds
    exact h.trans (digitsGreedy_all ds hdne hdig)

theorem tailProj_canonical (proj repo ds : List Char) (hproj : segOk proj = true)
    (hrepo : segOk repo = true) (hds : digitsOk ds = true) :
    tailProj (proj ++ (("/_git/".data) ++ (repo ++ (("/pullrequest/".data) ++ ds)))) =
      some (proj, repo, ds, []) := by
  obtain ⟨hne, hslash, hterm⟩ := segOk_spec proj hproj
  unfold tailProj
  refine lazyPlus_exact contGit (repo, ds, []) proj _ hne hterm ?_ ?_
  · intro i h1 hi
    exact contFail_region '/' ("_git/".data) tailRepo proj _ hslash
      (by decide) (by decide) i h1 hi
  · have h := litThen_self ("/_git/".data) tailRepo (repo ++ (("/pullrequest/".data) ++ ds))
    exact h.trans (tailRepo_canonical repo ds hrepo hds)

theorem matchDevAt_canonical (org proj repo ds : List Char)
    (horg : segOk org = true) (hproj : segOk proj = true) (hrepo : segOk repo = true)
    (hds : digitsOk ds = true) :
    matchDevAt (devUrlChars org proj repo ds) = some ⟨org, proj, repo, ds⟩ := by
  obtain ⟨hne, hslash, hterm⟩ := segOk_spec org horg
  have hurl : devUrlChars org proj repo ds =
      ("https://dev.azure.com/".data) ++
        (org ++ (("/".data) ++ (proj ++ (("/_git/".data) ++
          (repo ++ (("/pullrequest/".data) ++ ds)))))) := by
    simp [devUrlChars, List.append_assoc]
  have hlazy : lazyPlus (litThen ("/".data) tailProj)
      (org ++ (("/".data) ++ (proj ++ (("/_git/".data) ++
        (repo ++ (("/pullrequest/".data) ++ ds)))))) =
      some (org, proj, repo, ds, []) := by
    refine lazyPlus_exact _ (proj, repo, ds, []) org _ hne hterm ?_ ?_
    · intro i h1 hi
      exact contFail_region '/' [] tailProj org _ hslash (by decide) (by decide) i h1 hi
    · have h := litThen_self ("/".data) tailProj
        (proj ++ (("/_git/".data) ++ (repo ++ (("/pullrequest/".data) ++ ds))))
      exact h.trans (tailProj_canonical proj repo ds hproj hrepo hds)
  rw [hurl]
  simp only [matchDevAt, litMatchCI_self, hlazy]

theorem matchVsAt_canonical (org proj repo ds : List Char)
    (horg : segOk org = true) (hdot : org.all (fun c => !(c == '.')) = true)
    (hproj : segOk proj = true) (hrepo : segOk repo = true)
    (hds : digitsOk ds = true) :
    matchVsAt (vsUrlChars org proj repo ds) = some ⟨org, proj, repo, ds⟩ := by
  obtain ⟨hne, _, hterm⟩ := segOk_spec org horg
  have hnodot : ∀ c ∈ org, c ≠ '.' := by
    intro c hc
    have := List.all_eq_true.mp hdot c hc
    simpa [beq_eq_false_iff_ne] using this
  have hurl : vsUrlChars org proj repo ds =
      ("https://".data) ++
        (org ++ ((".visualstudio.com/".data) ++ (proj ++ (("/_git/".data) ++
          (repo ++ (("/pullrequest/".data) ++ ds)))))) := by
    simp [vsUrlChars, List.append_assoc]
  have hlazy : lazyPlus (litThen (".visualstudio.com/".data) tailProj)
      (org ++ ((".visualstudio.com/".data) ++ (proj ++ (("/_git/".data) ++
        (repo ++ (("/pullrequest/".data) ++ ds)))))) =
      some (org, proj, repo, ds, []) := by
    refine lazyPlus_exact _ (proj, repo, ds, []) org _ hne hterm ?_ ?_
    · intro i h1 hi
      exact contFail_region '.' ("visualstudio.com/".data) tailProj org _ hnodot
        (by decide) (by decide) i h1 hi
    · have h := litThen_self (".visualstudio.com/".data) tailProj
        (proj ++ (("/_git/".data) ++ (repo ++ (("/pullrequest/".data) ++ ds))))
      exact h.trans (tailProj_canonical proj repo ds hproj hrepo hds)
  rw [hurl]
  simp only [matchVsAt, litMatchCI_self, hlazy]

theorem searchAux_first (m : List Char → Option RawMatch) (s : List Char) (x : RawMatch)
    (h : m s = some x) : searchAux m s = some x := by
  cases s with
  | nil => simpa [searchAux] using h
  | cons c rest => simp [searchAux, h]

/-- Case-insensitive prefix test, the success condition of `litMatchCI`. -/
def startsWithCI : List Char → List Char → Bool
  | [], _ => true
  | _ :: _, [] => false
  | p :: ps, c :: cs => charEqCI c p && startsWithCI ps cs

/-- Case-insensitive substring test: the pattern occurs at some position. -/
def occursCI (pat : List Char) : List Char → Bool
  | [] => startsWithCI pat []
  | c :: rest => startsWithCI pat (c :: rest) || occursCI pat rest

theorem litMatchCI_some_starts (p : List Char) :
    ∀ (s r : List Char), litMatchCI p s = some r → startsWithCI p s = true := by
  induction p with
  | nil => intro s r _; rfl
  | cons a p ih =>
    intro s r h
    cases s with
    | nil => simp [litMatchCI] at h
    | cons c cs =>
      by_cases hc : charEqCI c a = true
      · simp only [litMatchCI, hc, if_true] at h
        simp [startsWithCI, hc, ih cs r h]
      · simp [litMatchCI, hc] at h

theorem litMatchCI_some_drop (p : List Char) :
    ∀ (s r : List Char), litMatchCI p s = some r → r = s.drop p.length := by
  induction p with
  | nil => intro s r h; simpa [litMatchCI] using h.symm
  | cons a p ih =>
    intro s r h
    cases s with
    | nil => simp [litMatchCI] at h
    | cons c cs =>
      by_cases hc : charEqCI c a = true
      · simp only [litMatchCI, hc, if_true] at h
        simpa using ih cs r h
      · simp [litMatchCI, hc] at h

theorem startsWithCI_append_left (p q : List Char) :
    ∀ s, startsWithCI (p ++ q) s = true → startsWithCI p s = true := by
  induction p with
  | nil => intro s _; rfl
  | cons a p ih =>
    intro s h
    cases s with
    | nil => simp [startsWithCI] at h
    | cons c cs =>
      simp only [List.cons_append, startsWithCI, Bool.and_eq_true] at h ⊢
      exact ⟨h.1, ih cs h.2⟩

theorem startsWithCI_append_drop (p q : List Char) :
    ∀ s, startsWithCI (p ++ q) s = true → startsWithCI q (s.drop p.length) = true := by
  induction p with
  | nil => intro s h; simpa using h
  | cons a p ih =>
    intro s h
    cases s with
    | nil => simp [startsWithCI] at h
    | cons c cs =>
      simp only [List.cons_append, startsWithCI, Bool.and_eq_true] at h
      simpa using ih cs h.2

theorem occursCI_false_drop (pat : List Char) :
    ∀ s, occursCI pat s = false → ∀ i, startsWithCI pat (s.drop i) = false := by
  intro s
  induction s with
  | nil => intro h i; simpa [occursCI, List.drop_nil] using h
  | cons c rest ih =>
    intro h i
    have h2 : startsWithCI pat (c :: rest) = false ∧ occursCI pat rest = false := by
      simpa [occursCI] using h
    cases i with
    | zero => exact h2.1
    | succ n => simpa using ih h2.2 n

theorem lazyPlusAux_some_suffix {α : Type} (cont : List Char → Option α) :
    ∀ (s acc : List Char) (g : List Char) (v : α),
      lazyPlusAux cont acc s = some (g, v) → ∃ i, cont (s.drop i) = some v := by
  intro s
  induction s with
  | nil => intro acc g v h; simp [lazyPlusAux] at h
  | cons c rest ih =>
    intro acc g v h
    by_cases hlt : isLineTerm c = true
    · rw [show lazyPlusAux cont acc (c :: rest) =
          (if isLineTerm c = true then none
           else
             match cont rest with
             | some v2 => some (acc ++ [c], v2)
             | none => lazyPlusAux cont (acc ++ [c]) rest) from rfl, if_pos hlt] at h
      cases h
    · rw [show lazyPlusAux cont acc (c :: rest) =
          (if isLineTerm c = true then none
           else
             match cont rest with
             | some v2 => some (acc ++ [c], v2)
             | none => lazyPlusAux cont (acc ++ [c]) rest) from rfl, if_neg hlt] at h
      cases hc : cont rest with
      | some v2 =>
        rw [hc] at h
        have hv : v2 = v := by
          have := (Prod.mk.injEq .. ▸ Option.some.injEq .. ▸ h)
          simpa using congrArg Prod.snd (Option.some.inj h)
        exact ⟨1, by simpa [hv] using hc⟩
      | none =>
        rw [hc] at h
        obtain ⟨i, hi⟩ := ih (acc ++ [c]) g v h
        exact ⟨i + 1, by simpa using hi⟩

theorem litThen_some_starts {α : Type} (lit : List Char) (k : List Char → Option α)
    (s : List Char) (v : α) (h : litThen lit k s = some v) :
    startsWithCI lit s = true := by
  unfold litThen at h
  cases hl : litMatchCI lit s with
  | none => rw [hl] at h; cases h
  | some r => exact litMatchCI_some_starts lit s r hl

theorem matchDevAt_none_of_no_host (s : List Char)
    (h : ∀ i, startsWithCI ("dev.azure.com".data) (s.drop i) = false) :
    matchDevAt s = none := by
  unfold matchDevAt
  cases hl : litMatchCI ("https://dev.azure.com/".data) s with
  | none => rfl
  | some r =>
    exfalso
    have hsw : startsWithCI (("https://".data) ++
        (("dev.azure.com".data) ++ ("/".data))) s = true :=
      litMatchCI_some_starts _ s r hl
    have hsw2 := startsWithCI_append_drop ("https://".data)
      (("dev.azure.com".data) ++ ("/".data)) s hsw
    have hsw3 := startsWithCI_append_left ("dev.azure.com".data) ("/".data) _ hsw2
    rw [h (("https://".data).length)] at hsw3
    cases hsw3

theorem matchVsAt_none_of_no_host (s : List Char)
    (h : ∀ i, startsWithCI (".visualstudio.com".data) (s.drop i) = false) :
    matchVsAt s = none := by
  unfold matchVsAt
  cases hl : litMatchCI ("https://".data) s with
  | none => rfl
  | some r =>
    cases hlz : lazyPlus (litThen (".visualstudio.com/".data) tailProj) r with
    | none => simp [hlz]
    | some p =>
      exfalso
      obtain ⟨g, v⟩ := p
      obtain ⟨j, hj⟩ := lazyPlusAux_some_suffix _ r [] g v hlz
      have hsw : startsWithCI ((".visualstudio.com".data) ++ ("/".data)) (r.drop j) = true :=
        litThen_some_starts _ tailProj _ v hj
      have hsw2 := startsWithCI_append_left (".visualstudio.com".data) ("/".data) _ hsw
      have hr : r = s.drop (("https://".data).length) := litMatchCI_some_drop _ s r hl
      rw [hr, List.drop_drop] at hsw2
      rw [h _] at hsw2
      cases hsw2

theorem searchAux_none (m : List Char → Option RawMatch) :
    ∀ s, (∀ i, m (s.drop i) = none) → searchAux m s = none := by
  intro s
  induction s with
  | nil => intro h; simpa [searchAux] using h 0
  | cons c rest ih =>
    intro h
    unfold searchAux
    rw [show m (c :: rest) = none from by simpa using h 0]
    exact ih (fun i => by simpa using h (i + 1))

theorem searchDev_none (s : List Char)
    (h : occursCI ("dev.azure.com".data) s = false) :
    searchAux matchDevAt s = none := by
  refine searchAux_none matchDevAt s (fun i => ?_)
  refine matchDevAt_none_of_no_host _ (fun j => ?_)
  rw [List.drop_drop]
  exact occursCI_false_drop _ s h (i + j)

theorem searchVs_none (s : List Char)
    (h : occursCI (".visualstudio.com".data) s = false) :
    searchAux matchVsAt s = none := by
  refine searchAux_none matchVsAt s (fun i => ?_)
  refine matchVsAt_none_of_no_host _ (fun j => ?_)
  rw [List.drop_drop]
  exact occursCI_false_drop _ s h (i + j)

/-- C1 (amended): the parser accepts every canonical dev.azure.com URL whose
organization, project and repository segments are non-empty and free of
slashes and line terminators and whose id is a digit run, returning the exact
four-tuple; likewise for visualstudio.com URLs (with a dot-free organization
and no occurrence of the other host); matching is substring-based and
case-insensitive throughout, and the id may be any digit run including `0`;
every string containing neither `dev.azure.com` nor `.visualstudio.com`
(case-insensitively) fails with the invalid-locator error, and no
partially-populated locator is ever produced. -/
theorem C1_parse_amended :
    (∀ org proj repo ds : List Char,
      segOk org = true → segOk proj = true → segOk repo = true → digitsOk ds = true →
      parsePrUrl (String.mk (devUrlChars org proj repo ds)) =
        .ok { organization := String.mk org, project := String.mk proj
              repository := String.mk repo, pullRequestId := digitsVal ds }) ∧
    (∀ org proj repo ds : List Char,
      segOk org = true → org.all (fun c => !(c == '.')) = true →
      segOk proj = true → segOk repo = true → digitsOk ds = true →
      occursCI ("dev.azure.com".data) (vsUrlChars org proj repo ds) = false →
      parsePrUrl (String.mk (vsUrlChars org proj repo ds)) =
        .ok { organization := String.mk org, project := String.mk proj
              repository := String.mk repo, pullRequestId := digitsVal ds }) ∧
    (∀ s : String,
      occursCI ("dev.azure.com".data) s.data = false →
      occursCI (".visualstudio.com".data) s.data = false →
      parsePrUrl s = .error .invalidUrl) := by
  refine ⟨?_, ?_, ?_⟩
  · intro org proj repo ds horg hproj hrepo hds
    have hm := matchDevAt_canonical org proj repo ds horg hproj hrepo hds
    unfold parsePrUrl
    rw [show (String.mk (devUrlChars org proj repo ds)).data =
        devUrlChars org proj repo ds from rfl]
    rw [searchAux_first matchDevAt _ _ hm]
    rfl
  · intro org proj repo ds horg hdot hproj hrepo hds hocc
    have hm := matchVsAt_canonical org proj repo ds horg hdot hproj hrepo hds
    unfold parsePrUrl
    rw [show (String.mk (vsUrlChars org proj repo ds)).data =
        vsUrlChars org proj repo ds from rfl]
    rw [searchDev_none _ hocc, searchAux_first matchVsAt _ _ hm]
    rfl
  · intro s h1 h2
    unfold parsePrUrl
    rw [searchDev_none _ h1, searchVs_none _ h2]

/-- Counterexample to C1 as stated: the trailing id segment `0` is not a
positive integer, so the claim requires failure with the invalid-locator
error, yet the code parses the URL and returns the locator with id `0`. -/
theorem C1_parse_counterexample :
    parsePrUrl "https://dev.azure.com/a/b/_git/c/pullrequest/0" =
      .ok { organization := "a", project := "b", repository := "c", pullRequestId := 0 } := by
  rfl

/-- Witness for the amended C1 at concrete URLs of all three kinds. -/
theorem C1_parse_amended_witness :
    (segOk ("contoso".data) = true ∧ segOk ("proj".data) = true ∧
      segOk ("repo".data) = true ∧ digitsOk ("42".data) = true ∧
      parsePrUrl "https://dev.azure.com/contoso/proj/_git/repo/pullrequest/42" =
        .ok { organization := "contoso", project := "proj"
              repository := "repo", pullRequestId := 42 }) ∧
    (("fabrikam".data).all (fun c => !(c == '.')) = true ∧
      occursCI ("dev.azure.com".data)
        (vsUrlChars ("fabrikam".data) ("proj".data) ("repo".data) ("7".data)) = false ∧
      parsePrUrl "https://fabrikam.visualstudio.com/proj/_git/repo/pullrequest/7" =
        .ok { organization := "fabrikam", project := "proj"
              repository := "repo", pullRequestId := 7 }) ∧
    (occursCI ("dev.azure.com".data) ("no pull request here".data) = false ∧
      occursCI (".visualstudio.com".data) ("no pull request here".data) = false ∧
      parsePrUrl "no pull request here" = .error .invalidUrl) := by
  refine ⟨⟨by decide, by decide, by decide, by decide, ?_⟩,
    ⟨by decide, by decide, ?_⟩, ⟨by decide, by decide, ?_⟩⟩
  · exact C1_parse_amended.1 ("contoso".data) ("proj".data) ("repo".data) ("42".data)
      (by decide) (by decide) (by decide) (by decide)
  · exact C1_parse_amended.2.1 ("fabrikam".data) ("proj".data) ("repo".data) ("7".data)
      (by decide) (by decide) (by decide) (by decide) (by decide) (by decide)
  · exact C1_parse_amended.2.2 "no pull request here" (by decide) (by decide)

end AdoPr
